import Mathlib

/-!
# fcd: register ModRef tables and pointer discovery

A shallow embedding of `pass_reguse.cpp` (the `RegisterUseWrapper` alias-analysis
pass) and of the data model and accessors of `pointer_discovery.h`, with the
hierarchy builder that the header declares, followed by the properties
established for them.

Conventions of the embedding:

* a C++ pointer is an `Option Nat`: `none` is `nullptr`, `some a` the object at
  address `a`; pointers are compared by address, as `std::unordered_map` does
  for pointer keys (register names are `const char*` keys);
* a `std::unordered_map` is an association list without duplicate keys; the
  order of the list is the iteration order of the container;
* a member function is a function from the object's state to its result paired
  with the object's state after the call.
-/

namespace fcd

/-! ## Pointers and `std::unordered_map` -/

/-- A C++ pointer: `none` is `nullptr`, `some a` the object at address `a`. -/
abbrev Ptr := Option Nat

/-- The first value stored under key `k` in an association list: the search of
`unordered_map::find`. -/
def findEntry {K V : Type} [DecidableEq K] : List (K × V) → K → Option V
  | [], _ => none
  | (k', v) :: rest, k => if k' = k then some v else findEntry rest k

/-- A `std::unordered_map<K, V>`: its entries in iteration order, no key twice. -/
structure UnorderedMap (K V : Type) [DecidableEq K] where
  entries : List (K × V)
  unique : (entries.map Prod.fst).Nodup

namespace UnorderedMap

variable {K V : Type} [DecidableEq K]

/-- The default-constructed, empty map. -/
def empty : UnorderedMap K V := ⟨[], List.nodup_nil⟩

/-- Lookup `m.find(k)`: `none` stands for `m.end()`, `some v` for an iterator whose
`second` is `v`. -/
def find (m : UnorderedMap K V) (k : K) : Option V := findEntry m.entries k

/-- Number of entries, `m.size()`. -/
def size (m : UnorderedMap K V) : Nat := m.entries.length

/-- The keys of the map in iteration order. -/
def keys (m : UnorderedMap K V) : List K := m.entries.map Prod.fst

/-- Subscript `m[k]` (`unordered_map::operator[]`): the value stored under `k`, after a
value-initialised entry `dflt` has been inserted when `k` had none. The result
is the value referred to and the map after the call. The standard leaves the
iteration position of a new entry open; the embedding puts it first. -/
def subscript (m : UnorderedMap K V) (k : K) (dflt : V) : V × UnorderedMap K V :=
  match h : findEntry m.entries k with
  | some v => (v, m)
  | none =>
    (dflt, ⟨(k, dflt) :: m.entries, by
      have absent : ∀ l : List (K × V), findEntry l k = none → k ∉ l.map Prod.fst := by
        intro l
        induction l with
        | nil => intro _; simp
        | cons e rest ih =>
          intro hnone
          unfold findEntry at hnone
          by_cases hk : e.1 = k
          · rw [if_pos hk] at hnone; cases hnone
          · rw [if_neg hk] at hnone
            simp only [List.map_cons, List.mem_cons, not_or]
            exact ⟨fun e' => hk e'.symm, ih hnone⟩
      rw [List.map_cons, List.nodup_cons]
      exact ⟨absent m.entries h, m.unique⟩⟩)

/-- Assignment `m[k] = v`: `operator[]` followed by a write through the reference
it returns. An existing entry keeps its place; a new one is put first, as
`subscript` does. -/
def assign (m : UnorderedMap K V) (k : K) (v : V) : UnorderedMap K V :=
  match h : findEntry m.entries k with
  | some _ =>
    ⟨m.entries.map (fun e => if e.1 = k then (e.1, v) else e), by
      have same : (m.entries.map (fun e => if e.1 = k then (e.1, v) else e)).map Prod.fst =
          m.entries.map Prod.fst := by
        rw [List.map_map]
        apply List.map_congr_left
        intro e _
        by_cases hk : e.1 = k
        · simp [hk]
        · simp [hk]
      rw [same]
      exact m.unique⟩
  | none => (m.subscript k v).2

end UnorderedMap

/-! ## `pass_reguse.cpp` -/

/-- The values of `llvm::AliasAnalysis::ModRefResult` (`NoModRef = 0`, `Ref = 1`,
`Mod = 2`, `ModRef = 3`) and the fifth value `4` that `modRefStrings` renders as
an incomplete `Ref`. -/
inductive ModRefResult where
  | NoModRef
  | Ref
  | Mod
  | ModRef
  | IncompleteRef
  deriving DecidableEq, Repr

/-- The integer value of an effect, which `modRefAsString` uses as array index. -/
def ModRefResult.toNat : ModRefResult → Nat
  | .NoModRef => 0
  | .Ref => 1
  | .Mod => 2
  | .ModRef => 3
  | .IncompleteRef => 4

/-- The array `modRefStrings` of `modRefAsString`, laid out by its designated
initialisers: `[NoModRef] = "-"`, `[Mod] = "mod"`, `[Ref] = "ref"`,
`[ModRef] = "modref"`, `[4] = "(incomplete) ref"`. -/
def modRefStrings : List String := ["-", "ref", "mod", "modref", "(incomplete) ref"]

/-- Rendering `modRefAsString(mrb)`: the array element `modRefStrings[mrb]`. -/
def modRefAsString (mrb : ModRefResult) : String :=
  modRefStrings.get ⟨mrb.toNat, by cases mrb <;> decide⟩

/-- The table of one function: `unordered_map<const char*, ModRefResult>`. -/
abbrev RegisterTable := UnorderedMap Ptr ModRefResult

/-- The type `RegisterUse`: function pointer to that function's table. -/
abbrev RegisterUse := UnorderedMap Ptr RegisterTable

/-- The state of a `RegisterUseWrapper`: the map its `registerUse` member refers to. -/
structure RegisterUseWrapper where
  registerUse : RegisterUse

/-- The members of `TargetInfo` that the pass calls; `TargetInfo` is the
register-naming collaborator, its code is outside the pass. -/
structure TargetInfo where
  registerName : Ptr → Ptr
  largestOverlappingRegister : Ptr → Ptr
  keyName : Ptr → Ptr

/-- An `llvm::MemoryLocation`, of which the pass reads `Ptr`. -/
structure MemoryLocation where
  ptr : Ptr
  size : Nat

/-- An `llvm::ImmutableCallSite`: whether its instruction is a `CallInst`
(`dyn_cast<CallInst>` succeeds; it is an `InvokeInst` otherwise) and what
`getCalledFunction()` returns, `nullptr` for a call through a value. -/
structure ImmutableCallSite where
  instruction : Nat
  isCallInst : Bool
  calledFunction : Ptr

namespace RegisterUseWrapper

/-- Member `getOrCreateModRefInfo(fn)`: `return registerUse[fn];`. -/
def getOrCreateModRefInfo (w : RegisterUseWrapper) (fn : Ptr) :
    RegisterTable × RegisterUseWrapper :=
  let r := w.registerUse.subscript fn UnorderedMap.empty
  (r.1, { registerUse := r.2 })

/-- Member `getModRefInfo(fn)`: the table of `fn`, or `nullptr` (`none`). -/
def getModRefInfo (w : RegisterUseWrapper) (fn : Ptr) :
    Option RegisterTable × RegisterUseWrapper :=
  (w.registerUse.find fn, w)

/-- Member `getModRefInfo(fn, registerName)`: the effect recorded for the key
name of a register in the table of `fn`. -/
def getModRefInfoReg (w : RegisterUseWrapper) (target : TargetInfo) (fn : Ptr)
    (registerName : Ptr) : ModRefResult × RegisterUseWrapper :=
  match w.registerUse.find fn with
  | some table =>
    let canon := target.keyName registerName
    match table.find canon with
    | some effect => (effect, w)
    | none => (ModRefResult.NoModRef, w)
  | none => (ModRefResult.NoModRef, w)

/-- Member `getModRefInfo(cs, location)`, the call-site query; `fallback` is the base class
`AliasAnalysis::getModRefInfo`. -/
def getModRefInfoCS (w : RegisterUseWrapper) (target : TargetInfo)
    (fallback : ImmutableCallSite → MemoryLocation → ModRefResult)
    (cs : ImmutableCallSite) (location : MemoryLocation) :
    ModRefResult × RegisterUseWrapper :=
  if cs.isCallInst then
    match w.registerUse.find cs.calledFunction with
    | some table =>
      let maybeName := target.registerName location.ptr
      let registerName := target.largestOverlappingRegister maybeName
      match table.find registerName with
      | none => (ModRefResult.NoModRef, w)
      | some effect => (effect, w)
    | none => (fallback cs location, w)
  else (fallback cs location, w)

/-- The line that the loop body of `dumpFn` writes for one table entry:
`cout << pair.first << ": " << modRefAsString(pair.second) << endl`, appended to
what the stream holds; `cstr` reads the characters a `const char*` points to. -/
def dumpEntry (cstr : Ptr → String) (cout : String) (pair : Ptr × ModRefResult) : String :=
  cout ++ cstr pair.1 ++ ": " ++ modRefAsString pair.2 ++ "\n"

/-- Member `dumpFn(fn)`: writes to `cout`, the characters written so far; `getName`
gives `fn->getName().str()`. The result is the stream after the call and the
object after the call. -/
def dumpFn (w : RegisterUseWrapper) (getName : Ptr → String) (cstr : Ptr → String)
    (fn : Ptr) (cout : String) : String × RegisterUseWrapper :=
  let cout1 := cout ++ getName fn ++ "\n"
  let cout2 :=
    match w.registerUse.find fn with
    | some table => table.entries.foldl (dumpEntry cstr) cout1
    | none => cout1
  (cout2 ++ "\n", w)

end RegisterUseWrapper

/-! ## `pointer_discovery.h` -/

/-- The enumeration `ObjectAddress::Type`. -/
inductive ObjectAddressType where
  | Root
  | ConstantOffset
  | VariableOffset
  deriving DecidableEq, Repr

/-- The objects of the class hierarchy under `ObjectAddress`, as they lie in
memory. A node holds the address of its `llvm::Value` and the identity of its
unification set, both `NOT_NULL`; a `RelativeObjectAddress` holds `parent`, the
address of another node; a `ConstantOffsetObjectAddress` adds the
`int64_t offset`, a `VariableOffsetObjectAddress` the `index` value and the
`uint64_t stride`. The member `parent` is an address like any other: a node whose
parent is the node itself, or a node created later, can be written down. -/
inductive ObjectAddress where
  | Root (value : Nat) (unification : Nat)
  | ConstantOffset (value : Nat) (unification : Nat) (parent : Nat) (offset : Int)
  | VariableOffset (value : Nat) (unification : Nat) (parent : Nat) (index : Nat)
      (stride : Nat)
  deriving DecidableEq, Repr

namespace ObjectAddress

/-- The member `type`, set by each constructor to the tag of its class. -/
def type : ObjectAddress → ObjectAddressType
  | .Root _ _ => ObjectAddressType.Root
  | .ConstantOffset _ _ _ _ => ObjectAddressType.ConstantOffset
  | .VariableOffset _ _ _ _ _ => ObjectAddressType.VariableOffset

/-- The member `parent` of a `RelativeObjectAddress`, the address of the parent
node; a `RootObjectAddress` has no such member. -/
def parent : ObjectAddress → Option Nat
  | .Root _ _ => none
  | .ConstantOffset _ _ p _ => some p
  | .VariableOffset _ _ p _ _ => some p

/-- The member `unification`. -/
def unification : ObjectAddress → Nat
  | .Root _ u => u
  | .ConstantOffset _ u _ _ => u
  | .VariableOffset _ u _ _ _ => u

end ObjectAddress

/-- A nullable `ObjectAddress*`: the address of a node, or `nullptr`. -/
abbrev ObjectAddressPtr := Ptr

/-- The data members of `PointerDiscovery`. The types `DumbAllocator` and
`ConstraintContext` are declared elsewhere and are parameters here. -/
structure PointerDiscovery (DumbAllocator ConstraintContext : Type) where
  pool : DumbAllocator
  context : ConstraintContext
  pointerValues : Option (List Ptr)
  currentFunction : Ptr
  sameTypeSets : UnorderedMap Ptr (List ObjectAddressPtr)
  objectAddresses : UnorderedMap Ptr ObjectAddressPtr
  addressesByFunction : UnorderedMap Ptr (List ObjectAddressPtr)

namespace PointerDiscovery

variable {DumbAllocator ConstraintContext : Type}

/-- Member `getAddressOfArgument(arg)`; `arg` is the address of the argument, the
key looked up is `&arg`. -/
def getAddressOfArgument (pd : PointerDiscovery DumbAllocator ConstraintContext) (arg : Nat) :
    ObjectAddressPtr × PointerDiscovery DumbAllocator ConstraintContext :=
  match pd.objectAddresses.find (some arg) with
  | none => (none, pd)
  | some second => (second, pd)

/-- Member `getAddressesInFunction(fn)`; `fn` is the address of the function, the
key looked up is `&fn`; `none` is the `nullptr` result. -/
def getAddressesInFunction (pd : PointerDiscovery DumbAllocator ConstraintContext) (fn : Nat) :
    Option (List ObjectAddressPtr) × PointerDiscovery DumbAllocator ConstraintContext :=
  match pd.addressesByFunction.find (some fn) with
  | some second => (some second, pd)
  | none => (none, pd)

end PointerDiscovery

/-! ## The hierarchy builder

The header declares `getRoot`, `createAddress`, `handleAddition`,
`createAddressHierarchy` and `analyzeModule` and holds none of their bodies. They
are modelled here from the specification of the hierarchy builder. -/

/-- Modelled from the spec: the arena (`DumbAllocator`, a type declared elsewhere)
that "owns all nodes created by pointer discovery for the lifetime of one
analysis run; no individual node is freed early". It is the list of the nodes in
allocation order, and the address of a node is its position in the list. -/
abbrev Pool := List ObjectAddress

/-- Modelled from the spec: `getRoot`, declared for `RootObjectAddress` and (final)
for `RelativeObjectAddress`; it "follows parent links to the unique root". A node
without parent returns itself, a relative node asks its parent. The first
argument bounds the number of nodes visited; `none` is a walk that has not
reached a root within the bound, or has left the arena. -/
def getRoot (pool : Pool) : Nat → Nat → Option Nat
  | 0, _ => none
  | fuel + 1, a =>
    match pool[a]? with
    | none => none
    | some node =>
      match node.parent with
      | none => some a
      | some p => getRoot pool fuel p

/-- The address reached from the node at `a` by following the parent link `n`
times; `none` when the chain ends before that or leaves the arena. -/
def ancestor (pool : Pool) : Nat → Nat → Option Nat
  | 0, a => some a
  | n + 1, a =>
    match pool[a]? with
    | none => none
    | some node =>
      match node.parent with
      | none => none
      | some p => ancestor pool n p

/-- Whether the node at an address is a `Root` node. -/
def isRootAt (pool : Pool) (a : Nat) : Bool :=
  match pool[a]? with
  | some node => decide (node.type = ObjectAddressType.Root)
  | none => false

/-- Modelled from the spec: the operand of a "pointer ± operand arithmetic
operation" as the IR provider reports it: "a compile-time constant", or an
index value with "the fixed multiplier applied to the variable index". -/
inductive AddedOperand where
  | constant (c : Int)
  | scaled (index : Nat) (stride : Nat)
  deriving DecidableEq, Repr

/-- Modelled from the spec: what the IR provider reports about a value: "the
result of a pointer ± operand arithmetic operation" with its base operand, its
other operand and whether it adds, or anything else. -/
inductive ValueShape where
  | other
  | arithmetic (base : Nat) (added : AddedOperand) (positive : Bool)
  deriving DecidableEq, Repr

namespace PointerDiscovery

variable {ConstraintContext : Type}

/-- Modelled from the spec: the state of a `PointerDiscovery` before its first
analysis: an empty arena, empty maps, no candidate set and no current function. -/
def init (context : ConstraintContext) : PointerDiscovery Pool ConstraintContext where
  pool := []
  context := context
  pointerValues := none
  currentFunction := none
  sameTypeSets := UnorderedMap.empty
  objectAddresses := UnorderedMap.empty
  addressesByFunction := UnorderedMap.empty

/-- Modelled from the spec: `createAddress<AddressType>(value, args...)`, declared
in the header. The node is allocated in the arena, inserted into its unification
set, "appended to its owning function's per-function address list in discovery
order, then memoized in the value→node map". The result is the address of the
node and the state after the call. -/
def createAddress (pd : PointerDiscovery Pool ConstraintContext) (value : Nat)
    (node : ObjectAddress) : Nat × PointerDiscovery Pool ConstraintContext :=
  let address := pd.pool.length
  (address,
    { pd with
      pool := pd.pool ++ [node]
      sameTypeSets := pd.sameTypeSets.assign (some node.unification)
        ((pd.sameTypeSets.find (some node.unification)).getD [] ++ [some address])
      addressesByFunction := pd.addressesByFunction.assign pd.currentFunction
        ((pd.addressesByFunction.find pd.currentFunction).getD [] ++ [some address])
      objectAddresses := pd.objectAddresses.assign (some value) (some address) })

/-- Modelled from the spec: the addition rule `combine(baseNode, operand, isAdd)`,
declared in the header as `handleAddition(base, totalValue, added, positive)`. A
constant operand gives a `ConstantOffsetObjectAddress` with `offset` the operand
or its negation, another operand a `VariableOffsetObjectAddress` with that index
and stride; the parent is `base` and the unification set is the one of the
parent. `base` is a reference to a node: `none` is the result for an address
that holds no node. -/
def handleAddition (pd : PointerDiscovery Pool ConstraintContext) (base : Nat)
    (totalValue : Nat) (added : AddedOperand) (positive : Bool) :
    Option (Nat × PointerDiscovery Pool ConstraintContext) :=
  match pd.pool[base]? with
  | none => none
  | some baseNode =>
    match added with
    | .constant c =>
      some (pd.createAddress totalValue
        (.ConstantOffset totalValue baseNode.unification base (if positive then c else -c)))
    | .scaled index stride =>
      some (pd.createAddress totalValue
        (.VariableOffset totalValue baseNode.unification base index stride))

/-- Whether a value is in the candidate set that `pointerValues` points to. -/
def isCandidate (pd : PointerDiscovery Pool ConstraintContext) (value : Nat) : Bool :=
  match pd.pointerValues with
  | some values => decide (some value ∈ values)
  | none => false

/-- Modelled from the spec: `addressOf(value)`, declared in the header as
`createAddressHierarchy(value)`. "If `value` already has an associated node,
return it"; a value that is not a candidate or not a pointer arithmetic gets "a
fresh `Root` node" in "a new singleton unification set"; for a pointer
arithmetic the node of the base operand is resolved first and the addition rule
applied to it. `shape` is the IR provider. The first argument bounds the depth of
the recursion through base operands; `none` is a run that exceeds it. -/
def createAddressHierarchy (shape : Nat → ValueShape) :
    Nat → PointerDiscovery Pool ConstraintContext → Nat →
      Option (Nat × PointerDiscovery Pool ConstraintContext)
  | 0, _, _ => none
  | fuel + 1, pd, value =>
    match pd.objectAddresses.find (some value) with
    | some (some address) => some (address, pd)
    | _ =>
      if pd.isCandidate value then
        match shape value with
        | .other => some (pd.createAddress value (.Root value pd.pool.length))
        | .arithmetic base added positive =>
          match createAddressHierarchy shape fuel pd base with
          | none => none
          | some (baseAddress, pd1) => pd1.handleAddition baseAddress value added positive
      else some (pd.createAddress value (.Root value pd.pool.length))

/-- The visit of one function by `analyzeModule`: `addressOf` for "every value in
the externally supplied candidate-pointer set that belongs to that function". -/
def analyzeFunction (shape : Nat → ValueShape) (fuel : Nat)
    (pd : PointerDiscovery Pool ConstraintContext) (fn : Nat) (values : List Nat) :
    PointerDiscovery Pool ConstraintContext :=
  values.foldl
    (fun st value =>
      if st.isCandidate value then
        match createAddressHierarchy shape fuel st value with
        | some r => r.2
        | none => st
      else st)
    { pd with currentFunction := some fn }

/-- Modelled from the spec: `analyzeModule(executable, module)`, declared in the
header: "for every function in the module, for every value in the externally
supplied candidate-pointer set that belongs to that function, invoke the
hierarchy builder's `addressOf`". The module is the list of its functions, each
with the values that belong to it. -/
def analyzeModule (shape : Nat → ValueShape) (fuel : Nat)
    (pd : PointerDiscovery Pool ConstraintContext) (pointerValues : List Nat)
    (module : List (Nat × List Nat)) : PointerDiscovery Pool ConstraintContext :=
  module.foldl (fun st f => analyzeFunction shape fuel st f.1 f.2)
    { pd with pointerValues := some (pointerValues.map some) }

end PointerDiscovery

/-- The property that the builder maintains on the arena: the parent of a node is
a node allocated before it. -/
def Constructed (pool : Pool) : Prop :=
  ∀ (a : Nat) (node : ObjectAddress) (p : Nat),
    pool[a]? = some node → node.parent = some p → p < a

/-- The property that the builder maintains on its state: the arena is
`Constructed` and the value-to-node map holds addresses of nodes of the arena. -/
def PointerDiscovery.Consistent {ConstraintContext : Type}
    (pd : PointerDiscovery Pool ConstraintContext) : Prop :=
  Constructed pd.pool ∧
    ∀ (value : Ptr) (a : Nat), pd.objectAddresses.find value = some (some a) →
      a < pd.pool.length

/-! ## Sample states -/

/-- A register file for the samples: `rax` at address 10, its 32-bit part `eax`
at address 11, `rbx` at address 20; the values at addresses 100, 101 and 102 are
the pointers to `rax`, `eax` and `rbx`. -/
def sampleTarget : TargetInfo where
  registerName := fun v =>
    if v = some 100 then some 10 else if v = some 101 then some 11
    else if v = some 102 then some 20 else none
  largestOverlappingRegister := fun r => if r = some 11 then some 10 else r
  keyName := fun r => if r = some 11 then some 10 else r

/-- A table recording `rax` as `Mod` and `rbx` as an incomplete `Ref`. -/
def sampleTable : RegisterTable := ⟨[(some 10, .Mod), (some 20, .IncompleteRef)], by decide⟩

/-- A state with the sample table for the function at address 1 and an empty
table for the function at address 2. -/
def sampleWrapper : RegisterUseWrapper :=
  ⟨⟨[(some 1, sampleTable), (some 2, UnorderedMap.empty)], by decide⟩⟩

/-- A generic alias analysis that answers `Ref` to every query. -/
def sampleFallback : ImmutableCallSite → MemoryLocation → ModRefResult := fun _ _ => .Ref

/-- A `CallInst` calling the function at address 1. -/
def directCall : ImmutableCallSite := ⟨0, true, some 1⟩

/-- A `CallInst` calling the function at address 2. -/
def directCallEmpty : ImmutableCallSite := ⟨1, true, some 2⟩

/-- A `CallInst` calling through a value: `getCalledFunction()` is null. -/
def indirectCall : ImmutableCallSite := ⟨2, true, none⟩

/-- An `InvokeInst` of the function at address 1. -/
def invokeSite : ImmutableCallSite := ⟨3, false, some 1⟩

/-- The names of the sample functions. -/
def sampleGetName : Ptr → String := fun f => if f = some 1 then "main" else "other"

/-- The characters of the sample register names. -/
def sampleCStr : Ptr → String := fun r =>
  if r = some 10 then "rax" else if r = some 20 then "rbx" else "eax"

/-- A root address, for the value at address 1 in the unification set 0. -/
def sampleRoot : ObjectAddress := .Root 1 0

/-- The address `sampleRoot + 8`; its parent is the node at address 0. -/
def sampleField : ObjectAddress := .ConstantOffset 2 0 0 8

/-- The address `(sampleRoot + 8) + 4 * i`, with the index value at address 9; its
parent is the node at address 1. -/
def sampleElement : ObjectAddress := .VariableOffset 3 0 1 9 4

/-- A discovery state that has recorded the three sample addresses, the nodes at
addresses 0, 1 and 2, for the values at addresses 1, 2 and 3, all in the function
at address 50, and an empty list for the function at address 51. -/
def samplePointerDiscovery : PointerDiscovery Pool Unit where
  pool := [sampleRoot, sampleField, sampleElement]
  context := ()
  pointerValues := some [some 1, some 2, some 3]
  currentFunction := some 50
  sameTypeSets := ⟨[(some 0, [some 0, some 1, some 2])], by decide⟩
  objectAddresses := ⟨[(some 1, some 0), (some 2, some 1), (some 3, some 2)], by decide⟩
  addressesByFunction := ⟨[(some 50, [some 0, some 1, some 2]), (some 51, [])], by decide⟩

/-- An IR in which the value at address 2 is the value at address 1 plus 8, the
value at address 3 is the value at address 2 plus 4 times the value at address
9, and every other value is no pointer arithmetic. -/
def sampleShape : Nat → ValueShape := fun value =>
  if value = 2 then .arithmetic 1 (.constant 8) true
  else if value = 3 then .arithmetic 2 (.scaled 9 4) true
  else .other

/-- The state after the analysis of a module whose one function, at address 50,
holds the candidate value at address 3. -/
def sampleAnalysis : PointerDiscovery Pool Unit :=
  PointerDiscovery.analyzeModule sampleShape 3 (PointerDiscovery.init ()) [1, 2, 3] [(50, [3])]

/-! ## Facts about `std::unordered_map` -/

/-- Two maps with the same entries are the same map. -/
theorem UnorderedMap.ext_entries {K V : Type} [DecidableEq K] :
    ∀ (a b : UnorderedMap K V), a.entries = b.entries → a = b
  | ⟨_, _⟩, ⟨_, _⟩, h => by cases h; rfl

/-- A key that `find` does not find is not among the keys. -/
theorem not_mem_keys_of_findEntry_none {K V : Type} [DecidableEq K] :
    ∀ (l : List (K × V)) (k : K), findEntry l k = none → k ∉ l.map Prod.fst
  | [], _, _ => by simp
  | (k', v) :: rest, k, h => by
    unfold findEntry at h
    by_cases hk : k' = k
    · simp [hk] at h
    · rw [if_neg hk] at h
      have ih := not_mem_keys_of_findEntry_none rest k h
      simp only [List.map_cons, List.mem_cons, not_or]
      exact ⟨fun e => hk e.symm, ih⟩

/-- A key that is not among the keys is not found. -/
theorem findEntry_none_of_not_mem_keys {K V : Type} [DecidableEq K] :
    ∀ (l : List (K × V)) (k : K), k ∉ l.map Prod.fst → findEntry l k = none
  | [], _, _ => rfl
  | (k', v) :: rest, k, h => by
    simp only [List.map_cons, List.mem_cons, not_or] at h
    unfold findEntry
    rw [if_neg (fun e => h.1 e.symm)]
    exact findEntry_none_of_not_mem_keys rest k h.2

/-- What `operator[]` does when the key is present: nothing. -/
theorem UnorderedMap.subscript_of_find_some {K V : Type} [DecidableEq K]
    (m : UnorderedMap K V) (k : K) (dflt v : V) (h : m.find k = some v) :
    m.subscript k dflt = (v, m) := by
  unfold UnorderedMap.find at h
  unfold UnorderedMap.subscript
  split
  · next v' hv => rw [h] at hv; cases hv; rfl
  · next hn => rw [h] at hn; cases hn

/-- What `operator[]` does when the key is absent: a new entry holding the
default value. -/
theorem UnorderedMap.subscript_of_find_none {K V : Type} [DecidableEq K]
    (m : UnorderedMap K V) (k : K) (dflt : V) (h : m.find k = none) :
    (m.subscript k dflt).1 = dflt ∧ (m.subscript k dflt).2.entries = (k, dflt) :: m.entries := by
  unfold UnorderedMap.find at h
  unfold UnorderedMap.subscript
  split
  · next v' hv => rw [h] at hv; cases hv
  · next hn => exact ⟨rfl, rfl⟩

/-- Looking a key up after `operator[]` on the same key finds the value that
`operator[]` referred to. -/
theorem UnorderedMap.find_subscript_self {K V : Type} [DecidableEq K]
    (m : UnorderedMap K V) (k : K) (dflt : V) :
    (m.subscript k dflt).2.find k = some (m.subscript k dflt).1 := by
  cases h : m.find k with
  | some v => rw [UnorderedMap.subscript_of_find_some m k dflt v h]; exact h
  | none =>
    obtain ⟨h1, h2⟩ := UnorderedMap.subscript_of_find_none m k dflt h
    unfold UnorderedMap.find
    rw [h1, h2]
    simp [findEntry]

/-- The function `operator[]` leaves every other key as it was. -/
theorem UnorderedMap.find_subscript_other {K V : Type} [DecidableEq K]
    (m : UnorderedMap K V) (k k' : K) (dflt : V) (hne : k' ≠ k) :
    (m.subscript k dflt).2.find k' = m.find k' := by
  cases h : m.find k with
  | some v => rw [UnorderedMap.subscript_of_find_some m k dflt v h]
  | none =>
    obtain ⟨_, h2⟩ := UnorderedMap.subscript_of_find_none m k dflt h
    unfold UnorderedMap.find
    rw [h2]
    simp [findEntry, Ne.symm hne]

/-! ## The register ModRef pass -/

/-- C1. At a call site that is a call instruction calling a function `f` (directly)
that has a table, the call-site query answers with the effect stored in that
table under `largestOverlappingRegister(registerName(loc.Ptr))`, and with
`NoModRef` when the table has no such key; the generic fallback plays no part in
the answer; two locations with the same largest overlapping register get the
same answer. -/
theorem getModRefInfoCS_direct_call (w : RegisterUseWrapper) (target : TargetInfo)
    (fallback : ImmutableCallSite → MemoryLocation → ModRefResult)
    (cs : ImmutableCallSite) (location : MemoryLocation) (f : Nat) (table : RegisterTable)
    (hcall : cs.isCallInst = true) (hf : cs.calledFunction = some f)
    (htable : w.registerUse.find (some f) = some table) :
    (∀ effect, table.find (target.largestOverlappingRegister
        (target.registerName location.ptr)) = some effect →
      (w.getModRefInfoCS target fallback cs location).1 = effect) ∧
    (table.find (target.largestOverlappingRegister
        (target.registerName location.ptr)) = none →
      (w.getModRefInfoCS target fallback cs location).1 = ModRefResult.NoModRef) ∧
    (∀ fallback', (w.getModRefInfoCS target fallback' cs location).1 =
      (w.getModRefInfoCS target fallback cs location).1) ∧
    (∀ location' : MemoryLocation,
      target.largestOverlappingRegister (target.registerName location'.ptr) =
        target.largestOverlappingRegister (target.registerName location.ptr) →
      (w.getModRefInfoCS target fallback cs location').1 =
        (w.getModRefInfoCS target fallback cs location).1) := by
  rw [← hf] at htable
  refine ⟨?_, ?_, ?_, ?_⟩
  · intro effect he
    simp only [RegisterUseWrapper.getModRefInfoCS, hcall, htable, he, if_true]
  · intro hnone
    simp only [RegisterUseWrapper.getModRefInfoCS, hcall, htable, hnone, if_true]
  · intro fallback'
    simp only [RegisterUseWrapper.getModRefInfoCS, hcall, htable, if_true]
  · intro location' hsame
    simp only [RegisterUseWrapper.getModRefInfoCS, hcall, htable, hsame, if_true]

/-- Witness of C1: the sample call site and the location of `eax`, whose largest
overlapping register `rax` is recorded as `Mod`. -/
theorem getModRefInfoCS_direct_call_witness :
    (sampleWrapper.getModRefInfoCS sampleTarget sampleFallback directCall ⟨some 101, 4⟩).1 =
      ModRefResult.Mod ∧
    (sampleWrapper.getModRefInfoCS sampleTarget sampleFallback directCall ⟨some 100, 8⟩).1 =
      (sampleWrapper.getModRefInfoCS sampleTarget sampleFallback directCall ⟨some 101, 4⟩).1 :=
  have h := getModRefInfoCS_direct_call sampleWrapper sampleTarget sampleFallback directCall
    ⟨some 101, 4⟩ 1 sampleTable rfl rfl rfl
  ⟨h.1 ModRefResult.Mod rfl, h.2.2.2 ⟨some 100, 8⟩ rfl⟩

/-- C2, refuted as stated. The function at address 2 has a table, the table has
no entry for `rax` (so `rax` is not recorded as `Mod` or `ModRef`), and the
call-site query at a call of that function answers `NoModRef`: neither `Ref`
nor the incomplete `Ref`. -/
theorem getModRefInfoCS_unrecorded_register_counterexample :
    directCallEmpty.isCallInst = true ∧
    sampleWrapper.registerUse.find directCallEmpty.calledFunction = some UnorderedMap.empty ∧
    (UnorderedMap.empty : RegisterTable).find
      (sampleTarget.largestOverlappingRegister (sampleTarget.registerName (some 100))) = none ∧
    (sampleWrapper.getModRefInfoCS sampleTarget sampleFallback directCallEmpty
      ⟨some 100, 8⟩).1 = ModRefResult.NoModRef ∧
    (sampleWrapper.getModRefInfoCS sampleTarget sampleFallback directCallEmpty
      ⟨some 100, 8⟩).1 ≠ ModRefResult.Ref ∧
    (sampleWrapper.getModRefInfoCS sampleTarget sampleFallback directCallEmpty
      ⟨some 100, 8⟩).1 ≠ ModRefResult.IncompleteRef :=
  ⟨rfl, rfl, rfl, rfl, by decide, by decide⟩

/-- C2, amended. At a call site that is a call instruction whose called function
has a table, for a queried register that the table does not record as `Mod` or
`ModRef`, the call-site query reports what the table records and nothing else:
the incomplete `Ref` exactly when the table records it, `Ref` exactly when the
table records `Ref`, and `NoModRef` exactly when the register has no entry or is
recorded as `NoModRef`; it never reports `Mod` or `ModRef` for such a register. -/
theorem getModRefInfoCS_register_not_mod (w : RegisterUseWrapper) (target : TargetInfo)
    (fallback : ImmutableCallSite → MemoryLocation → ModRefResult)
    (cs : ImmutableCallSite) (location : MemoryLocation) (table : RegisterTable)
    (hcall : cs.isCallInst = true)
    (htable : w.registerUse.find cs.calledFunction = some table)
    (hmod : table.find (target.largestOverlappingRegister
      (target.registerName location.ptr)) ≠ some ModRefResult.Mod)
    (hmodref : table.find (target.largestOverlappingRegister
      (target.registerName location.ptr)) ≠ some ModRefResult.ModRef) :
    (w.getModRefInfoCS target fallback cs location).1 ≠ ModRefResult.Mod ∧
    (w.getModRefInfoCS target fallback cs location).1 ≠ ModRefResult.ModRef ∧
    ((w.getModRefInfoCS target fallback cs location).1 = ModRefResult.IncompleteRef ↔
      table.find (target.largestOverlappingRegister (target.registerName location.ptr)) =
        some ModRefResult.IncompleteRef) ∧
    ((w.getModRefInfoCS target fallback cs location).1 = ModRefResult.Ref ↔
      table.find (target.largestOverlappingRegister (target.registerName location.ptr)) =
        some ModRefResult.Ref) ∧
    ((w.getModRefInfoCS target fallback cs location).1 = ModRefResult.NoModRef ↔
      (table.find (target.largestOverlappingRegister (target.registerName location.ptr)) =
          none ∨
        table.find (target.largestOverlappingRegister (target.registerName location.ptr)) =
          some ModRefResult.NoModRef)) := by
  cases hfind : table.find (target.largestOverlappingRegister
      (target.registerName location.ptr)) with
  | none =>
    simp only [RegisterUseWrapper.getModRefInfoCS, hcall, htable, hfind, if_true]
    simp
  | some effect =>
    rw [hfind] at hmod hmodref
    simp only [RegisterUseWrapper.getModRefInfoCS, hcall, htable, hfind, if_true]
    cases effect <;> simp_all

/-- Witness of C2 (amended): `rbx`, recorded as an incomplete `Ref` in the sample
table, is reported as an incomplete `Ref`. -/
theorem getModRefInfoCS_register_not_mod_witness :
    (sampleWrapper.getModRefInfoCS sampleTarget sampleFallback directCall ⟨some 102, 8⟩).1 =
      ModRefResult.IncompleteRef :=
  (getModRefInfoCS_register_not_mod sampleWrapper sampleTarget sampleFallback directCall
    ⟨some 102, 8⟩ sampleTable rfl rfl (by decide) (by decide)).2.2.1.mpr rfl

/-- The call-site query returns the answer of the generic fallback when the
instruction of the call site is not a call instruction and when the map holds
no table under the pointer that `getCalledFunction()` returns. -/
theorem getModRefInfoCS_fallback (w : RegisterUseWrapper) (target : TargetInfo)
    (fallback : ImmutableCallSite → MemoryLocation → ModRefResult)
    (cs : ImmutableCallSite) (location : MemoryLocation)
    (h : cs.isCallInst = false ∨ w.registerUse.find cs.calledFunction = none) :
    (w.getModRefInfoCS target fallback cs location).1 = fallback cs location := by
  rcases h with h | h
  · simp [RegisterUseWrapper.getModRefInfoCS, h]
  · unfold RegisterUseWrapper.getModRefInfoCS
    rw [h]
    split <;> rfl

/-- A call site that is not a call instruction calling a function with a table
has no call instruction or no table under its called-function pointer, in a
state whose tables are all stored under function pointers. -/
theorem not_call_or_no_table (w : RegisterUseWrapper) (cs : ImmutableCallSite)
    (hfunctions : w.registerUse.find none = none)
    (hnot : ¬ (cs.isCallInst = true ∧
      ∃ f table, cs.calledFunction = some f ∧ w.registerUse.find (some f) = some table)) :
    cs.isCallInst = false ∨ w.registerUse.find cs.calledFunction = none := by
  cases hcall : cs.isCallInst with
  | false => exact Or.inl rfl
  | true =>
    right
    cases hf : cs.calledFunction with
    | none => exact hfunctions
    | some f =>
      cases ht : w.registerUse.find (some f) with
      | none => rfl
      | some table => exact absurd ⟨hcall, f, table, hf, ht⟩ hnot

/-- C3. In every state of the per-function tables, that is every state whose
tables are stored under function pointers and none under the null pointer, a
call site that is not a call instruction calling a function that has a table
gets from the call-site query the answer of the generic fallback for the same
call site and location. So does, in particular, every call site whose called
function is null (a call through a value), and every call site that is not a
call instruction. The answer is the same in every other such state: it is not
read from a table. -/
theorem getModRefInfoCS_unresolved_fallback (w : RegisterUseWrapper) (target : TargetInfo)
    (fallback : ImmutableCallSite → MemoryLocation → ModRefResult)
    (cs : ImmutableCallSite) (location : MemoryLocation)
    (hfunctions : w.registerUse.find none = none) :
    (¬ (cs.isCallInst = true ∧
        ∃ f table, cs.calledFunction = some f ∧ w.registerUse.find (some f) = some table) →
      (w.getModRefInfoCS target fallback cs location).1 = fallback cs location ∧
      ∀ w' : RegisterUseWrapper, w'.registerUse.find none = none →
        ¬ (cs.isCallInst = true ∧
          ∃ f table, cs.calledFunction = some f ∧ w'.registerUse.find (some f) = some table) →
        (w'.getModRefInfoCS target fallback cs location).1 =
          (w.getModRefInfoCS target fallback cs location).1) ∧
    (cs.calledFunction = none →
      (w.getModRefInfoCS target fallback cs location).1 = fallback cs location) ∧
    (cs.isCallInst = false →
      (w.getModRefInfoCS target fallback cs location).1 = fallback cs location) ∧
    (∀ f, cs.calledFunction = some f → w.registerUse.find (some f) = none →
      (w.getModRefInfoCS target fallback cs location).1 = fallback cs location) := by
  refine ⟨?_, ?_, ?_, ?_⟩
  · intro hnot
    have hw := getModRefInfoCS_fallback w target fallback cs location
      (not_call_or_no_table w cs hfunctions hnot)
    refine ⟨hw, ?_⟩
    intro w' hfunctions' hnot'
    rw [hw]
    exact getModRefInfoCS_fallback w' target fallback cs location
      (not_call_or_no_table w' cs hfunctions' hnot')
  · intro hnull
    apply getModRefInfoCS_fallback
    right
    rw [hnull]
    exact hfunctions
  · intro hcall
    exact getModRefInfoCS_fallback w target fallback cs location (Or.inl hcall)
  · intro f hf hnone
    apply getModRefInfoCS_fallback
    right
    rw [hf]
    exact hnone

/-- Witness of C3: in the sample state a call through a value, an invoke of a
function that has a table, and a call of a function without a table all get
the answer of the fallback. -/
theorem getModRefInfoCS_unresolved_fallback_witness :
    sampleWrapper.registerUse.find none = none ∧
    (sampleWrapper.getModRefInfoCS sampleTarget sampleFallback indirectCall
      ⟨some 100, 8⟩).1 = sampleFallback indirectCall ⟨some 100, 8⟩ ∧
    (sampleWrapper.getModRefInfoCS sampleTarget sampleFallback invokeSite
      ⟨some 100, 8⟩).1 = sampleFallback invokeSite ⟨some 100, 8⟩ ∧
    (sampleWrapper.getModRefInfoCS sampleTarget sampleFallback ⟨4, true, some 3⟩
      ⟨some 100, 8⟩).1 = sampleFallback ⟨4, true, some 3⟩ ⟨some 100, 8⟩ :=
  ⟨rfl,
    (getModRefInfoCS_unresolved_fallback sampleWrapper sampleTarget sampleFallback indirectCall
      ⟨some 100, 8⟩ rfl).2.1 rfl,
    ((getModRefInfoCS_unresolved_fallback sampleWrapper sampleTarget sampleFallback invokeSite
      ⟨some 100, 8⟩ rfl).1 (fun h => Bool.noConfusion h.1)).1,
    (getModRefInfoCS_unresolved_fallback sampleWrapper sampleTarget sampleFallback
      ⟨4, true, some 3⟩ ⟨some 100, 8⟩ rfl).2.2.2 3 rfl rfl⟩

/-- C4. The lookup `getModRefInfo(fn, registerName)` returns `NoModRef` when `fn`
has no table and when the table of `fn` has no entry under
`keyName(registerName)`, and otherwise the effect stored under that key. It is
a total function of the tables and the key name alone. -/
theorem getModRefInfoReg_lookup (w : RegisterUseWrapper) (target : TargetInfo) (fn : Ptr)
    (registerName : Ptr) :
    (w.registerUse.find fn = none →
      (w.getModRefInfoReg target fn registerName).1 = ModRefResult.NoModRef) ∧
    (∀ table, w.registerUse.find fn = some table →
      table.find (target.keyName registerName) = none →
      (w.getModRefInfoReg target fn registerName).1 = ModRefResult.NoModRef) ∧
    (∀ table effect, w.registerUse.find fn = some table →
      table.find (target.keyName registerName) = some effect →
      (w.getModRefInfoReg target fn registerName).1 = effect) := by
  refine ⟨?_, ?_, ?_⟩
  · intro h
    simp only [RegisterUseWrapper.getModRefInfoReg, h]
  · intro table h hk
    simp only [RegisterUseWrapper.getModRefInfoReg, h, hk]
  · intro table effect h hk
    simp only [RegisterUseWrapper.getModRefInfoReg, h, hk]

/-- Witness of C4: in the sample state `eax`, whose key name is `rax`, is `Mod` for
the function at address 1, and `NoModRef` for a function without a table. -/
theorem getModRefInfoReg_lookup_witness :
    (sampleWrapper.getModRefInfoReg sampleTarget (some 1) (some 11)).1 = ModRefResult.Mod ∧
    (sampleWrapper.getModRefInfoReg sampleTarget (some 3) (some 11)).1 =
      ModRefResult.NoModRef :=
  ⟨(getModRefInfoReg_lookup sampleWrapper sampleTarget (some 1) (some 11)).2.2
      sampleTable ModRefResult.Mod rfl rfl,
    (getModRefInfoReg_lookup sampleWrapper sampleTarget (some 3) (some 11)).1 rfl⟩

/-- C5. The call `getOrCreateModRefInfo(fn)` returns the existing table of `fn`
and leaves the state alone when `fn` has a table; otherwise it returns an
empty table and installs it for `fn`. Afterwards `getModRefInfo(fn)` is not
null and is the table returned, a second call returns the same table and
changes nothing, and every other function has the table, or the absence of a
table, that it had before. -/
theorem getOrCreateModRefInfo_lazy (w : RegisterUseWrapper) (fn : Ptr) :
    (∀ table, w.registerUse.find fn = some table → w.getOrCreateModRefInfo fn = (table, w)) ∧
    (w.registerUse.find fn = none →
      (w.getOrCreateModRefInfo fn).1 = UnorderedMap.empty ∧
      (w.getOrCreateModRefInfo fn).2.registerUse.find fn = some UnorderedMap.empty) ∧
    ((w.getOrCreateModRefInfo fn).2.getModRefInfo fn).1 = some (w.getOrCreateModRefInfo fn).1 ∧
    ((w.getOrCreateModRefInfo fn).2.getModRefInfo fn).1 ≠ none ∧
    (w.getOrCreateModRefInfo fn).2.getOrCreateModRefInfo fn = w.getOrCreateModRefInfo fn ∧
    (∀ g, g ≠ fn →
      (w.getOrCreateModRefInfo fn).2.registerUse.find g = w.registerUse.find g) := by
  have hself : (w.getOrCreateModRefInfo fn).2.registerUse.find fn =
      some (w.getOrCreateModRefInfo fn).1 :=
    UnorderedMap.find_subscript_self w.registerUse fn UnorderedMap.empty
  refine ⟨?_, ?_, hself, ?_, ?_, ?_⟩
  · intro table h
    simp only [RegisterUseWrapper.getOrCreateModRefInfo,
      UnorderedMap.subscript_of_find_some w.registerUse fn UnorderedMap.empty table h]
  · intro h
    have h1 := (UnorderedMap.subscript_of_find_none w.registerUse fn UnorderedMap.empty h).1
    have h2 := hself
    simp only [RegisterUseWrapper.getOrCreateModRefInfo] at h2 ⊢
    rw [h1] at h2
    exact ⟨h1, h2⟩
  · show (w.getOrCreateModRefInfo fn).2.registerUse.find fn ≠ none
    rw [hself]
    exact Option.some_ne_none _
  · have h := UnorderedMap.subscript_of_find_some (w.getOrCreateModRefInfo fn).2.registerUse
      fn UnorderedMap.empty (w.getOrCreateModRefInfo fn).1 hself
    show (((w.getOrCreateModRefInfo fn).2.registerUse.subscript fn UnorderedMap.empty).1,
      (⟨((w.getOrCreateModRefInfo fn).2.registerUse.subscript fn UnorderedMap.empty).2⟩ :
        RegisterUseWrapper)) = w.getOrCreateModRefInfo fn
    rw [h]
  · intro g hg
    exact UnorderedMap.find_subscript_other w.registerUse fn g UnorderedMap.empty hg

/-- Witness of C5: the function at address 3 has no table in the sample state and
gets an empty one; the function at address 1 keeps its table. -/
theorem getOrCreateModRefInfo_lazy_witness :
    (sampleWrapper.getOrCreateModRefInfo (some 3)).1 = UnorderedMap.empty ∧
    (sampleWrapper.getOrCreateModRefInfo (some 3)).2.registerUse.find (some 3) =
      some UnorderedMap.empty ∧
    (sampleWrapper.getOrCreateModRefInfo (some 3)).2.registerUse.find (some 1) =
      some sampleTable :=
  have h := getOrCreateModRefInfo_lazy sampleWrapper (some 3)
  ⟨(h.2.1 rfl).1, (h.2.1 rfl).2, (h.2.2.2.2.2 (some 1) (by decide)).trans rfl⟩

/-- Appending strings one after the other to a stream is appending their
concatenation. -/
theorem foldl_append_eq_append_join (l : List String) :
    ∀ init : String, l.foldl (fun r s => r ++ s) init = init ++ String.join l := by
  unfold String.join
  induction l with
  | nil => intro init; simp
  | cons x xs ih =>
    intro init
    rw [List.foldl_cons, List.foldl_cons, ih (init ++ x), ih ("" ++ x), String.empty_append,
      String.append_assoc]

/-- The loop of `dumpFn` appends one line per table entry, in iteration order. -/
theorem foldl_dumpEntry (cstr : Ptr → String) (l : List (Ptr × ModRefResult)) :
    ∀ cout : String, l.foldl (RegisterUseWrapper.dumpEntry cstr) cout =
      cout ++ String.join
        (l.map (fun pair => cstr pair.1 ++ ": " ++ modRefAsString pair.2 ++ "\n")) := by
  induction l with
  | nil => intro cout; simp [String.join]
  | cons x xs ih =>
    intro cout
    rw [List.foldl_cons, ih, List.map_cons]
    unfold String.join
    rw [List.foldl_cons, foldl_append_eq_append_join _ ("" ++ _), String.empty_append]
    unfold RegisterUseWrapper.dumpEntry String.join
    simp only [String.append_assoc]

/-- No entry of a list has a key that is not among its keys. -/
theorem filter_key_eq_nil {K V : Type} [DecidableEq K] :
    ∀ (l : List (K × V)) (k : K), k ∉ l.map Prod.fst →
      l.filter (fun p => decide (p.1 = k)) = []
  | [], _, _ => rfl
  | (k', v) :: rest, k, h => by
    simp only [List.map_cons, List.mem_cons, not_or] at h
    rw [List.filter_cons_of_neg (by simpa using fun e => h.1 e.symm)]
    exact filter_key_eq_nil rest k h.2

/-- A key that `find` finds is the key of exactly one entry of the map, the
entry with the value found. -/
theorem UnorderedMap.filter_key_of_find {K V : Type} [DecidableEq K] (m : UnorderedMap K V)
    (k : K) (v : V) (h : m.find k = some v) :
    m.entries.filter (fun p => decide (p.1 = k)) = [(k, v)] := by
  obtain ⟨entries, unique⟩ := m
  unfold UnorderedMap.find at h
  simp only at h ⊢
  induction entries with
  | nil => simp [findEntry] at h
  | cons e rest ih =>
    obtain ⟨k', v'⟩ := e
    rw [List.map_cons, List.nodup_cons] at unique
    unfold findEntry at h
    by_cases hk : k' = k
    · rw [if_pos hk] at h
      cases h
      subst hk
      rw [List.filter_cons_of_pos (by simp), filter_key_eq_nil rest k' unique.1]
    · rw [if_neg hk] at h
      rw [List.filter_cons_of_neg (by simpa using hk)]
      exact ih unique.2 h

/-- C9. The dump of a function appends to the stream the name of the function and
a line end, then for every entry of the table of the function, in iteration
order, one line made of the register name, a colon and a blank, the rendering
of the effect and a line end, then one more line end; without a table it
appends the name and two line ends. There are as many register lines as
entries and every recorded register is the key of exactly one entry. The
rendering is "-", "mod", "ref", "modref" and "(incomplete) ref"; every effect
indexes inside the five strings of the array and different effects render
differently. -/
theorem dumpFn_format (w : RegisterUseWrapper) (getName : Ptr → String) (cstr : Ptr → String)
    (fn : Ptr) (cout : String) :
    (∀ table, w.registerUse.find fn = some table →
      (w.dumpFn getName cstr fn cout).1 =
        cout ++ getName fn ++ "\n" ++
          String.join (table.entries.map
            (fun pair => cstr pair.1 ++ ": " ++ modRefAsString pair.2 ++ "\n")) ++ "\n" ∧
      (table.entries.map
        (fun pair => cstr pair.1 ++ ": " ++ modRefAsString pair.2 ++ "\n")).length =
          table.size ∧
      table.keys.Nodup ∧
      (∀ register effect, table.find register = some effect →
        table.entries.filter (fun pair => decide (pair.1 = register)) =
          [(register, effect)])) ∧
    (w.registerUse.find fn = none →
      (w.dumpFn getName cstr fn cout).1 = cout ++ getName fn ++ "\n" ++ "\n") ∧
    modRefAsString ModRefResult.NoModRef = "-" ∧
    modRefAsString ModRefResult.Mod = "mod" ∧
    modRefAsString ModRefResult.Ref = "ref" ∧
    modRefAsString ModRefResult.ModRef = "modref" ∧
    modRefAsString ModRefResult.IncompleteRef = "(incomplete) ref" ∧
    ModRefResult.IncompleteRef.toNat = 4 ∧
    modRefStrings.length = 5 ∧
    (∀ effect : ModRefResult, effect.toNat < modRefStrings.length) ∧
    (∀ a b : ModRefResult, modRefAsString a = modRefAsString b → a = b) := by
  refine ⟨?_, ?_, rfl, rfl, rfl, rfl, rfl, rfl, rfl, ?_, ?_⟩
  · intro table h
    refine ⟨?_, ?_, table.unique, ?_⟩
    · simp only [RegisterUseWrapper.dumpFn, h, foldl_dumpEntry]
    · simp [UnorderedMap.size]
    · intro register effect hfind
      exact UnorderedMap.filter_key_of_find table register effect hfind
  · intro h
    simp only [RegisterUseWrapper.dumpFn, h]
  · intro effect
    cases effect <;> decide
  · intro a b hab
    cases a <;> cases b <;> first | rfl | exact absurd hab (by decide)

/-- Witness of C9: the dump of the function at address 1 in the sample state. -/
theorem dumpFn_format_witness :
    (sampleWrapper.dumpFn sampleGetName sampleCStr (some 1) "").1 =
      "main\nrax: mod\nrbx: (incomplete) ref\n\n" :=
  (((dumpFn_format sampleWrapper sampleGetName sampleCStr (some 1) "").1
    sampleTable rfl).1).trans (by decide)

/-- C10. The lookups leave the function-to-table map as it was: `getModRefInfo(fn)`,
`getModRefInfo(fn, registerName)`, the call-site query and `dumpFn` return the
state they were given. The lookup `getModRefInfo(fn)` returns null exactly when
`fn` has no table, that is when `fn` is not a key of the map, and does so
again after the call. After `getOrCreateModRefInfo(fn)` every function that had
a table has the same table, and a function other than `fn` without a table
still has none. -/
theorem lookups_leave_tables_unchanged (w : RegisterUseWrapper) (target : TargetInfo)
    (fallback : ImmutableCallSite → MemoryLocation → ModRefResult)
    (getName : Ptr → String) (cstr : Ptr → String) (fn : Ptr) (registerName : Ptr)
    (cs : ImmutableCallSite) (location : MemoryLocation) (cout : String) :
    (w.getModRefInfo fn).2 = w ∧
    (w.getModRefInfoReg target fn registerName).2 = w ∧
    (w.getModRefInfoCS target fallback cs location).2 = w ∧
    (w.dumpFn getName cstr fn cout).2 = w ∧
    ((w.getModRefInfo fn).1 = none ↔ fn ∉ w.registerUse.keys) ∧
    (((w.getModRefInfo fn).2.getModRefInfo fn).1 = none ↔ fn ∉ w.registerUse.keys) ∧
    (∀ g table, w.registerUse.find g = some table →
      (w.getOrCreateModRefInfo fn).2.registerUse.find g = some table) ∧
    (∀ g, g ≠ fn → w.registerUse.find g = none →
      (w.getOrCreateModRefInfo fn).2.registerUse.find g = none) := by
  have hnull : (w.getModRefInfo fn).1 = none ↔ fn ∉ w.registerUse.keys :=
    ⟨fun h => not_mem_keys_of_findEntry_none w.registerUse.entries fn h,
      fun h => findEntry_none_of_not_mem_keys w.registerUse.entries fn h⟩
  refine ⟨rfl, ?_, ?_, rfl, hnull, hnull, ?_, ?_⟩
  · unfold RegisterUseWrapper.getModRefInfoReg
    split
    · dsimp only
      split <;> rfl
    · rfl
  · unfold RegisterUseWrapper.getModRefInfoCS
    split
    · split
      · dsimp only
        split <;> rfl
      · rfl
    · rfl
  · intro g table hg
    by_cases hgf : g = fn
    · subst hgf
      simp only [RegisterUseWrapper.getOrCreateModRefInfo,
        UnorderedMap.subscript_of_find_some w.registerUse g UnorderedMap.empty table hg]
      exact hg
    · rw [← hg]
      exact UnorderedMap.find_subscript_other w.registerUse fn g UnorderedMap.empty hgf
  · intro g hgf hg
    rw [← hg]
    exact UnorderedMap.find_subscript_other w.registerUse fn g UnorderedMap.empty hgf

/-- Witness of C10: looking up the function at address 3, which has no table in
the sample state, returns null and the state still has no table for it. -/
theorem lookups_leave_tables_unchanged_witness :
    (sampleWrapper.getModRefInfo (some 3)).1 = none ∧
    ((sampleWrapper.getModRefInfo (some 3)).2.getModRefInfo (some 3)).1 = none ∧
    (sampleWrapper.getModRefInfoCS sampleTarget sampleFallback directCall
      ⟨some 100, 8⟩).2 = sampleWrapper :=
  have h := lookups_leave_tables_unchanged sampleWrapper sampleTarget sampleFallback
    sampleGetName sampleCStr (some 3) (some 10) directCall ⟨some 100, 8⟩ ""
  ⟨h.2.2.2.2.1.mpr (by decide), h.2.2.2.2.2.1.mpr (by decide), h.2.2.1⟩

/-! ## The object address hierarchy -/

/-- The search of `find` looks at the first entry, then at the others. -/
theorem findEntry_cons {K V : Type} [DecidableEq K] (k0 k : K) (v0 : V) (rest : List (K × V)) :
    findEntry ((k0, v0) :: rest) k = if k0 = k then some v0 else findEntry rest k := rfl

/-- Looking a key up in a list whose entries under `k` have been overwritten. -/
theorem findEntry_map_assign {K V : Type} [DecidableEq K] (k k' : K) (v : V) :
    ∀ l : List (K × V),
      findEntry (l.map (fun e => if e.1 = k then (e.1, v) else e)) k' =
        if k' = k then (findEntry l k).map (fun _ => v) else findEntry l k'
  | [] => by simp [findEntry]
  | (k0, v0) :: rest => by
    have ih := findEntry_map_assign k k' v rest
    rw [List.map_cons]
    show findEntry ((if k0 = k then (k0, v) else (k0, v0)) :: _) k' = _
    by_cases h0 : k0 = k
    · rw [if_pos h0, findEntry_cons, findEntry_cons, ih]
      by_cases h' : k' = k
      · have hk : k0 = k' := h0.trans h'.symm
        simp [h0, h', hk]
      · have hk : ¬ k0 = k' := fun e => h' (e.symm.trans h0)
        simp [h', hk, findEntry_cons]
    · rw [if_neg h0, findEntry_cons, findEntry_cons, ih]
      by_cases h' : k' = k
      · have hk : ¬ k0 = k' := fun e => h0 (e.trans h')
        simp [h0, h', hk]
      · simp [h', findEntry_cons]

/-- After the assignment `m[k] = v` the key `k` holds `v` and every other key
holds what it held. -/
theorem UnorderedMap.find_assign {K V : Type} [DecidableEq K] (m : UnorderedMap K V)
    (k k' : K) (v : V) :
    (m.assign k v).find k' = if k' = k then some v else m.find k' := by
  unfold UnorderedMap.assign
  split
  · next v0 h0 =>
    unfold UnorderedMap.find
    simp only
    rw [findEntry_map_assign, h0]
    rfl
  · next h0 =>
    by_cases h' : k' = k
    · subst h'
      rw [if_pos rfl, UnorderedMap.find_subscript_self,
        (UnorderedMap.subscript_of_find_none m k' v h0).1]
    · rw [if_neg h', UnorderedMap.find_subscript_other m k k' v h']

/-- The node at an address of an arena that has grown by one node is the node
that was there, or the new node at the first free address. -/
theorem getElem?_snoc (pool : Pool) (node n : ObjectAddress) (a : Nat)
    (h : (pool ++ [node])[a]? = some n) :
    (a < pool.length ∧ pool[a]? = some n) ∨ (a = pool.length ∧ n = node) := by
  by_cases ha : a < pool.length
  · left
    rw [List.getElem?_append_left ha] at h
    exact ⟨ha, h⟩
  · right
    have hle : pool.length ≤ a := Nat.le_of_not_lt ha
    rw [List.getElem?_append_right hle] at h
    cases hd : a - pool.length with
    | zero =>
      rw [hd] at h
      simp at h
      exact ⟨by omega, h.symm⟩
    | succ m =>
      rw [hd] at h
      simp at h

/-- An address that holds a node lies inside the arena. -/
theorem lt_length_of_getElem? (pool : Pool) (a : Nat) (node : ObjectAddress)
    (h : pool[a]? = some node) : a < pool.length := by
  by_contra hcon
  rw [List.getElem?_eq_none (Nat.le_of_not_lt hcon)] at h
  cases h

/-- A node is a `Root` node exactly when it has no parent. -/
theorem ObjectAddress.type_root_iff (node : ObjectAddress) :
    node.type = ObjectAddressType.Root ↔ node.parent = none := by
  cases node <;> simp [ObjectAddress.type, ObjectAddress.parent]

/-- The address of a `Root` node holds a node without parent. -/
theorem isRootAt_iff (pool : Pool) (a : Nat) :
    isRootAt pool a = true ↔ ∃ node, pool[a]? = some node ∧ node.parent = none := by
  unfold isRootAt
  cases h : pool[a]? with
  | none => simp
  | some node => simp [ObjectAddress.type_root_iff]

/-- The parent chain ends at a `Root` node. -/
theorem ancestor_succ_of_root (pool : Pool) (a k : Nat) (h : isRootAt pool a = true) :
    ancestor pool (k + 1) a = none := by
  obtain ⟨node, hn, hp⟩ := (isRootAt_iff pool a).mp h
  simp [ancestor, hn, hp]

/-- One step along the parent chain. -/
theorem ancestor_succ_of_parent (pool : Pool) (a k p : Nat) (node : ObjectAddress)
    (hn : pool[a]? = some node) (hp : node.parent = some p) :
    ancestor pool (k + 1) a = ancestor pool k p := by
  simp [ancestor, hn, hp]

/-- A chain that goes on after a node goes through the parent of that node. -/
theorem parent_of_ancestor_succ (pool : Pool) (a k r : Nat)
    (h : ancestor pool (k + 1) a = some r) :
    ∃ node p, pool[a]? = some node ∧ node.parent = some p ∧ ancestor pool k p = some r := by
  unfold ancestor at h
  cases hn : pool[a]? with
  | none => rw [hn] at h; cases h
  | some node =>
    rw [hn] at h
    dsimp only at h
    cases hp : node.parent with
    | none => rw [hp] at h; cases h
    | some p =>
      rw [hp] at h
      exact ⟨node, p, rfl, hp, h⟩

/-- A parent chain holds at most one `Root` node. -/
theorem ancestor_root_unique (pool : Pool) :
    ∀ (k k' a r r' : Nat), ancestor pool k a = some r → isRootAt pool r = true →
      ancestor pool k' a = some r' → isRootAt pool r' = true → k = k' ∧ r = r'
  | 0, 0, a, r, r', h, _, h', _ => by
    simp only [ancestor, Option.some.injEq] at h h'
    exact ⟨rfl, h.symm.trans h'⟩
  | 0, k' + 1, a, r, r', h, hr, h', _ => by
    simp only [ancestor, Option.some.injEq] at h
    subst h
    rw [ancestor_succ_of_root pool a k' hr] at h'
    cases h'
  | k + 1, 0, a, r, r', h, _, h', hr' => by
    simp only [ancestor, Option.some.injEq] at h'
    subst h'
    rw [ancestor_succ_of_root pool a k hr'] at h
    cases h
  | k + 1, k' + 1, a, r, r', h, hr, h', hr' => by
    obtain ⟨node, p, hn, hp, hk⟩ := parent_of_ancestor_succ pool a k r h
    rw [ancestor_succ_of_parent pool a k' p node hn hp] at h'
    obtain ⟨e, er⟩ := ancestor_root_unique pool k k' p r r' hk hr h' hr'
    exact ⟨by rw [e], er⟩

/-- A parent chain has no node beyond its `Root` node. -/
theorem ancestor_beyond_root (pool : Pool) :
    ∀ (d a r k : Nat), ancestor pool d a = some r → isRootAt pool r = true → d < k →
      ancestor pool k a = none
  | _, _, _, 0, _, _, hk => absurd hk (Nat.not_lt_zero _)
  | 0, a, r, k + 1, h, hr, _ => by
    simp only [ancestor, Option.some.injEq] at h
    subst h
    exact ancestor_succ_of_root pool a k hr
  | d + 1, a, r, k + 1, h, hr, hk => by
    obtain ⟨node, p, hn, hp, hd⟩ := parent_of_ancestor_succ pool a d r h
    rw [ancestor_succ_of_parent pool a k p node hn hp]
    exact ancestor_beyond_root pool d p r k hd hr (by omega)

/-- A parent chain goes through a node at every smaller number of links, and goes
on from that node. -/
theorem ancestor_split (pool : Pool) :
    ∀ (k d a r : Nat), ancestor pool d a = some r → k ≤ d →
      ∃ b, ancestor pool k a = some b ∧ ancestor pool (d - k) b = some r
  | 0, d, a, r, h, _ => ⟨a, rfl, h⟩
  | k + 1, 0, _, _, _, hk => absurd hk (by omega)
  | k + 1, d + 1, a, r, h, hk => by
    obtain ⟨node, p, hn, hp, hd⟩ := parent_of_ancestor_succ pool a d r h
    obtain ⟨b, hb, hrest⟩ := ancestor_split pool k d p r hd (by omega)
    refine ⟨b, ?_, ?_⟩
    · rw [ancestor_succ_of_parent pool a k p node hn hp]
      exact hb
    · rw [Nat.add_sub_add_right]
      exact hrest

/-- The walk of `getRoot` returns the `Root` node of the parent chain as soon as
its bound exceeds the number of links to it. -/
theorem getRoot_of_ancestor (pool : Pool) :
    ∀ (d a r n : Nat), ancestor pool d a = some r → isRootAt pool r = true → d < n →
      getRoot pool n a = some r
  | _, _, _, 0, _, _, hn => absurd hn (Nat.not_lt_zero _)
  | 0, a, r, n + 1, h, hr, _ => by
    simp only [ancestor, Option.some.injEq] at h
    subst h
    obtain ⟨node, hnode, hp⟩ := (isRootAt_iff pool a).mp hr
    simp [getRoot, hnode, hp]
  | d + 1, a, r, n + 1, h, hr, hn => by
    obtain ⟨node, p, hnode, hp, hd⟩ := parent_of_ancestor_succ pool a d r h
    have ih := getRoot_of_ancestor pool d p r n hd hr (by omega)
    simp [getRoot, hnode, hp, ih]

/-- In an arena where every parent was allocated before its children, the parent
chain of every node reaches a `Root` node, in no more links than the address
of the node. -/
theorem exists_root_of_constructed (pool : Pool) (hc : Constructed pool) :
    ∀ (a : Nat), a < pool.length →
      ∃ d r, d ≤ a ∧ ancestor pool d a = some r ∧ isRootAt pool r = true := by
  intro a
  induction a using Nat.strong_induction_on with
  | _ a ih =>
    intro ha
    have hnode : pool[a]? = some pool[a] := List.getElem?_eq_getElem ha
    cases hp : (pool[a]).parent with
    | none =>
      exact ⟨0, a, Nat.zero_le _, rfl, (isRootAt_iff pool a).mpr ⟨pool[a], hnode, hp⟩⟩
    | some p =>
      have hlt : p < a := hc a pool[a] p hnode hp
      obtain ⟨d, r, hd, hanc, hr⟩ := ih p hlt (by omega)
      refine ⟨d + 1, r, by omega, ?_, hr⟩
      rw [ancestor_succ_of_parent pool a d p pool[a] hnode hp]
      exact hanc

/-- An arena stays `Constructed` when a node whose parent, if it has one, is
already in the arena is allocated. -/
theorem constructed_snoc (pool : Pool) (node : ObjectAddress) (hc : Constructed pool)
    (hparent : ∀ p, node.parent = some p → p < pool.length) :
    Constructed (pool ++ [node]) := by
  intro a n p hn hp
  rcases getElem?_snoc pool node n a hn with ⟨_, hold⟩ | ⟨ha, hnew⟩
  · exact hc a n p hold hp
  · subst hnew
    rw [ha]
    exact hparent p hp

/-- The state before the first analysis is consistent. -/
theorem PointerDiscovery.init_consistent {ConstraintContext : Type} (context : ConstraintContext) :
    (PointerDiscovery.init context).Consistent := by
  refine ⟨?_, ?_⟩
  · intro a node p hn _
    simp [PointerDiscovery.init] at hn
  · intro value a h
    simp [PointerDiscovery.init, UnorderedMap.find, UnorderedMap.empty, findEntry] at h

/-- The allocation of a node whose parent, if it has one, is in the arena keeps
the state consistent and returns the address of a node of the new arena. -/
theorem PointerDiscovery.createAddress_consistent {ConstraintContext : Type}
    (pd : PointerDiscovery Pool ConstraintContext) (value : Nat) (node : ObjectAddress)
    (hpd : pd.Consistent) (hparent : ∀ p, node.parent = some p → p < pd.pool.length) :
    (pd.createAddress value node).2.Consistent ∧
      (pd.createAddress value node).1 < (pd.createAddress value node).2.pool.length := by
  have hpool : (pd.createAddress value node).2.pool = pd.pool ++ [node] := rfl
  have hmap : (pd.createAddress value node).2.objectAddresses =
      pd.objectAddresses.assign (some value) (some pd.pool.length) := rfl
  have haddr : (pd.createAddress value node).1 = pd.pool.length := rfl
  refine ⟨⟨?_, ?_⟩, ?_⟩
  · rw [hpool]
    exact constructed_snoc pd.pool node hpd.1 hparent
  · intro v a h
    rw [hmap, UnorderedMap.find_assign] at h
    rw [hpool, List.length_append, List.length_singleton]
    by_cases hv : v = some value
    · rw [if_pos hv] at h
      simp only [Option.some.injEq] at h
      omega
    · rw [if_neg hv] at h
      have := hpd.2 v a h
      omega
  · rw [haddr, hpool, List.length_append, List.length_singleton]
    omega

/-- The addition rule keeps the state consistent. -/
theorem PointerDiscovery.handleAddition_consistent {ConstraintContext : Type}
    (pd : PointerDiscovery Pool ConstraintContext) (base totalValue : Nat)
    (added : AddedOperand) (positive : Bool)
    (r : Nat × PointerDiscovery Pool ConstraintContext)
    (hpd : pd.Consistent) (h : pd.handleAddition base totalValue added positive = some r) :
    r.2.Consistent ∧ r.1 < r.2.pool.length := by
  unfold PointerDiscovery.handleAddition at h
  cases hbase : pd.pool[base]? with
  | none => rw [hbase] at h; cases h
  | some baseNode =>
    rw [hbase] at h
    have hlt : base < pd.pool.length := lt_length_of_getElem? pd.pool base baseNode hbase
    cases added with
    | constant c =>
      simp only [Option.some.injEq] at h
      rw [← h]
      apply PointerDiscovery.createAddress_consistent pd _ _ hpd
      intro p hp
      simp only [ObjectAddress.parent, Option.some.injEq] at hp
      omega
    | scaled index stride =>
      simp only [Option.some.injEq] at h
      rw [← h]
      apply PointerDiscovery.createAddress_consistent pd _ _ hpd
      intro p hp
      simp only [ObjectAddress.parent, Option.some.injEq] at hp
      omega

/-- The builder keeps the state consistent and returns the address of a node. -/
theorem PointerDiscovery.createAddressHierarchy_consistent {ConstraintContext : Type}
    (shape : Nat → ValueShape) :
    ∀ (fuel : Nat) (pd : PointerDiscovery Pool ConstraintContext) (value : Nat)
      (r : Nat × PointerDiscovery Pool ConstraintContext),
      pd.Consistent → PointerDiscovery.createAddressHierarchy shape fuel pd value = some r →
      r.2.Consistent ∧ r.1 < r.2.pool.length
  | 0, _, _, _, _, h => by
    simp [PointerDiscovery.createAddressHierarchy] at h
  | fuel + 1, pd, value, r, hpd, h => by
    have hroot : ∀ u, (pd.createAddress value (.Root value u)).2.Consistent ∧
        (pd.createAddress value (.Root value u)).1 <
          (pd.createAddress value (.Root value u)).2.pool.length := by
      intro u
      apply PointerDiscovery.createAddress_consistent pd _ _ hpd
      intro p hp
      simp [ObjectAddress.parent] at hp
    unfold PointerDiscovery.createAddressHierarchy at h
    split at h
    · next address hfind =>
      simp only [Option.some.injEq] at h
      rw [← h]
      exact ⟨hpd, hpd.2 (some value) address hfind⟩
    · split at h
      · split at h
        · simp only [Option.some.injEq] at h
          rw [← h]
          exact hroot _
        · next base added positive hshape =>
          split at h
          · cases h
          · next baseAddress pd1 hbase =>
            have ih := PointerDiscovery.createAddressHierarchy_consistent shape fuel pd base
              (baseAddress, pd1) hpd hbase
            exact PointerDiscovery.handleAddition_consistent pd1 baseAddress value added
              positive r ih.1 h
      · simp only [Option.some.injEq] at h
        rw [← h]
        exact hroot _

/-- The visit of a function keeps the state consistent. -/
theorem PointerDiscovery.analyzeFunction_consistent {ConstraintContext : Type}
    (shape : Nat → ValueShape) (fuel : Nat) (fn : Nat) (values : List Nat) :
    ∀ (pd : PointerDiscovery Pool ConstraintContext), pd.Consistent →
      (PointerDiscovery.analyzeFunction shape fuel pd fn values).Consistent := by
  intro pd hpd
  unfold PointerDiscovery.analyzeFunction
  have hstart : ({ pd with currentFunction := some fn } :
      PointerDiscovery Pool ConstraintContext).Consistent := hpd
  generalize ({ pd with currentFunction := some fn } :
      PointerDiscovery Pool ConstraintContext) = st at hstart
  induction values generalizing st with
  | nil => exact hstart
  | cons value rest ih =>
    rw [List.foldl_cons]
    apply ih
    split
    · split
      · next r hr =>
        exact (PointerDiscovery.createAddressHierarchy_consistent shape fuel st value r
          hstart hr).1
      · exact hstart
    · exact hstart

/-- The analysis of a module keeps the state consistent. -/
theorem PointerDiscovery.analyzeModule_consistent {ConstraintContext : Type}
    (shape : Nat → ValueShape) (fuel : Nat) (pointerValues : List Nat)
    (module : List (Nat × List Nat)) :
    ∀ (pd : PointerDiscovery Pool ConstraintContext), pd.Consistent →
      (PointerDiscovery.analyzeModule shape fuel pd pointerValues module).Consistent := by
  intro pd hpd
  unfold PointerDiscovery.analyzeModule
  have hstart : ({ pd with pointerValues := some (pointerValues.map some) } :
      PointerDiscovery Pool ConstraintContext).Consistent := hpd
  generalize ({ pd with pointerValues := some (pointerValues.map some) } :
      PointerDiscovery Pool ConstraintContext) = st at hstart
  induction module generalizing st with
  | nil => exact hstart
  | cons f rest ih =>
    rw [List.foldl_cons]
    exact ih _ (PointerDiscovery.analyzeFunction_consistent shape fuel f.1 f.2 st hstart)

/-- A node with a parent is not a `Root` node. -/
theorem isRootAt_of_parent (pool : Pool) (b p : Nat) (node : ObjectAddress)
    (hn : pool[b]? = some node) (hp : node.parent = some p) : isRootAt pool b = false := by
  cases h : isRootAt pool b with
  | false => rfl
  | true =>
    obtain ⟨node', hn', hp'⟩ := (isRootAt_iff pool b).mp h
    rw [hn] at hn'
    cases hn'
    rw [hp] at hp'
    cases hp'

/-- The arena can hold a cycle, and `getRoot` then returns for no bound: the node
at address 0 below is its own parent. -/
theorem getRoot_of_cycle : ∀ n, getRoot [ObjectAddress.ConstantOffset 1 0 0 8] n 0 = none
  | 0 => rfl
  | n + 1 => by
    have ih := getRoot_of_cycle n
    simp [getRoot, ObjectAddress.parent, ih]

/-- C6. In the arena that the analysis of a module leaves, whatever the module, the
candidate set and the IR, every object address node has a parent chain that ends
after finitely many links, its depth `d`, at a `Root` node `r`: the nodes met
before are not `Root` nodes, there is no node beyond, and a `Root` node met on
the chain is `r`, met after `d` links. `getRoot` returns `r` as soon as its bound
exceeds `d`, and with the size of the arena as bound. For a `Root` node `r` is
the node itself; for a node with a parent `getRoot` is `getRoot` of the parent
and the parent has the root `r`; every node on the chain has the root `r`. -/
theorem discovered_hierarchy_unique_root {ConstraintContext : Type} (shape : Nat → ValueShape)
    (fuel : Nat) (context : ConstraintContext) (pointerValues : List Nat)
    (module : List (Nat × List Nat)) (pool : Pool) (a : Nat) (node : ObjectAddress)
    (hpool : pool = (PointerDiscovery.analyzeModule shape fuel
      (PointerDiscovery.init context) pointerValues module).pool)
    (hnode : pool[a]? = some node) :
    ∃ d r,
      d ≤ a ∧
      ancestor pool d a = some r ∧
      isRootAt pool r = true ∧
      (∀ k, k < d → ∃ b, ancestor pool k a = some b ∧ isRootAt pool b = false) ∧
      (∀ k, d < k → ancestor pool k a = none) ∧
      (∀ k r', ancestor pool k a = some r' → isRootAt pool r' = true → k = d ∧ r' = r) ∧
      (∀ n, d < n → getRoot pool n a = some r) ∧
      getRoot pool pool.length a = some r ∧
      (node.type = ObjectAddressType.Root → d = 0 ∧ r = a) ∧
      (∀ p, node.parent = some p →
        (∀ n, getRoot pool (n + 1) a = getRoot pool n p) ∧
        ∀ n, d ≤ n → getRoot pool n p = some r) ∧
      (∀ k b, ancestor pool k a = some b → ∀ n, d - k < n → getRoot pool n b = some r) := by
  have hc : Constructed pool := by
    rw [hpool]
    exact (PointerDiscovery.analyzeModule_consistent shape fuel pointerValues module
      (PointerDiscovery.init context) (PointerDiscovery.init_consistent context)).1
  have ha : a < pool.length := lt_length_of_getElem? pool a node hnode
  obtain ⟨d, r, hd, hanc, hr⟩ := exists_root_of_constructed pool hc a ha
  have hsame : ∀ k b, ancestor pool k a = some b → ∀ n, d - k < n →
      getRoot pool n b = some r := by
    intro k b hb n hn
    have hk : k ≤ d := by
      by_contra hcon
      rw [ancestor_beyond_root pool d a r k hanc hr (by omega)] at hb
      cases hb
    obtain ⟨b', hb', hrest⟩ := ancestor_split pool k d a r hanc hk
    rw [hb] at hb'
    cases hb'
    exact getRoot_of_ancestor pool (d - k) b r n hrest hr hn
  refine ⟨d, r, hd, hanc, hr, ?_, ?_, ?_, ?_, ?_, ?_, ?_, hsame⟩
  · intro k hk
    obtain ⟨b, hb, hrest⟩ := ancestor_split pool k d a r hanc (by omega)
    refine ⟨b, hb, ?_⟩
    obtain ⟨m, hm⟩ : ∃ m, d - k = m + 1 := ⟨d - k - 1, by omega⟩
    rw [hm] at hrest
    obtain ⟨nb, p, hnb, hp, _⟩ := parent_of_ancestor_succ pool b m r hrest
    exact isRootAt_of_parent pool b p nb hnb hp
  · intro k hk
    exact ancestor_beyond_root pool d a r k hanc hr hk
  · intro k r' hk hr'
    obtain ⟨e1, e2⟩ := ancestor_root_unique pool k d a r' r hk hr' hanc hr
    exact ⟨e1, e2⟩
  · intro n hn
    exact getRoot_of_ancestor pool d a r n hanc hr hn
  · exact getRoot_of_ancestor pool d a r pool.length hanc hr (by omega)
  · intro htype
    have hroot : isRootAt pool a = true :=
      (isRootAt_iff pool a).mpr ⟨node, hnode, (ObjectAddress.type_root_iff node).mp htype⟩
    obtain ⟨e1, e2⟩ := ancestor_root_unique pool 0 d a a r rfl hroot hanc hr
    exact ⟨e1.symm, e2.symm⟩
  · intro p hp
    refine ⟨?_, ?_⟩
    · intro n
      simp [getRoot, hnode, hp]
    · intro n hn
      cases d with
      | zero =>
        simp only [ancestor, Option.some.injEq] at hanc
        subst hanc
        rw [isRootAt_of_parent pool a p node hnode hp] at hr
        cases hr
      | succ m =>
        rw [ancestor_succ_of_parent pool a m p node hnode hp] at hanc
        exact getRoot_of_ancestor pool m p r n hanc hr (by omega)

/-- Witness of C6: the analysis of the sample module builds the three sample
nodes; the element at address 2 is two links deep, its chain ends at the root
at address 0, and the field at address 1 has the same root. -/
theorem discovered_hierarchy_unique_root_witness :
    sampleAnalysis.pool = [sampleRoot, sampleField, sampleElement] ∧
    getRoot sampleAnalysis.pool 3 2 = some 0 ∧
    ancestor sampleAnalysis.pool 3 2 = none ∧
    getRoot sampleAnalysis.pool 2 1 = some 0 := by
  obtain ⟨d, r, _, _, _, _, hbeyond, hunique, hroot, _, _, _, hchain⟩ :=
    discovered_hierarchy_unique_root sampleShape 3 () [1, 2, 3] [(50, [3])]
      sampleAnalysis.pool 2 sampleElement rfl rfl
  obtain ⟨hd, hr⟩ := hunique 2 0 rfl rfl
  subst hd hr
  exact ⟨rfl, hroot 3 (by decide), hbeyond 3 (by decide), hchain 1 1 rfl 2 (by decide)⟩

/-! ## The accessors of `PointerDiscovery` -/

/-- C7. The lookup `getAddressOfArgument(arg)` returns the node pointer recorded
for the argument in the value-to-node map when one is recorded and null
otherwise, and leaves the object as it was: the pool of nodes, the
value-to-node map, the per-function lists and the registry of unification sets
are the ones from before the call. -/
theorem getAddressOfArgument_lookup {DumbAllocator ConstraintContext : Type}
    (pd : PointerDiscovery DumbAllocator ConstraintContext) (arg : Nat) :
    (∀ node, pd.objectAddresses.find (some arg) = some node →
      (pd.getAddressOfArgument arg).1 = node) ∧
    (pd.objectAddresses.find (some arg) = none → (pd.getAddressOfArgument arg).1 = none) ∧
    (pd.getAddressOfArgument arg).2 = pd ∧
    (pd.getAddressOfArgument arg).2.pool = pd.pool ∧
    (pd.getAddressOfArgument arg).2.objectAddresses = pd.objectAddresses ∧
    (pd.getAddressOfArgument arg).2.addressesByFunction = pd.addressesByFunction ∧
    (pd.getAddressOfArgument arg).2.sameTypeSets = pd.sameTypeSets := by
  have hstate : (pd.getAddressOfArgument arg).2 = pd := by
    unfold PointerDiscovery.getAddressOfArgument
    split <;> rfl
  refine ⟨?_, ?_, hstate, ?_, ?_, ?_, ?_⟩
  · intro node h
    simp only [PointerDiscovery.getAddressOfArgument, h]
  · intro h
    simp only [PointerDiscovery.getAddressOfArgument, h]
  all_goals rw [hstate]

/-- Witness of C7: the argument at address 1 has the sample root recorded, the
argument at address 4 has nothing recorded. -/
theorem getAddressOfArgument_lookup_witness :
    (samplePointerDiscovery.getAddressOfArgument 1).1 = some 0 ∧
    (samplePointerDiscovery.getAddressOfArgument 4).1 = none ∧
    (samplePointerDiscovery.getAddressOfArgument 4).2 = samplePointerDiscovery :=
  ⟨(getAddressOfArgument_lookup samplePointerDiscovery 1).1 (some 0) rfl,
    (getAddressOfArgument_lookup samplePointerDiscovery 4).2.1 rfl,
    (getAddressOfArgument_lookup samplePointerDiscovery 4).2.2.1⟩

/-- C8. The accessor `getAddressesInFunction(fn)` returns the list recorded for the
function, the same nodes in the same order, when one is recorded, and null
otherwise; null is not an empty list, which is returned exactly when an empty
list is recorded; the call leaves the object as it was, so a function without
a list still has none. -/
theorem getAddressesInFunction_lookup {DumbAllocator ConstraintContext : Type}
    (pd : PointerDiscovery DumbAllocator ConstraintContext) (fn : Nat) :
    (pd.getAddressesInFunction fn).1 = pd.addressesByFunction.find (some fn) ∧
    (∀ addresses, pd.addressesByFunction.find (some fn) = some addresses →
      (pd.getAddressesInFunction fn).1 = some addresses) ∧
    (pd.addressesByFunction.find (some fn) = none → (pd.getAddressesInFunction fn).1 = none) ∧
    ((pd.getAddressesInFunction fn).1 = some [] ↔
      pd.addressesByFunction.find (some fn) = some []) ∧
    (pd.addressesByFunction.find (some fn) = none →
      (pd.getAddressesInFunction fn).1 ≠ some []) ∧
    (pd.getAddressesInFunction fn).2 = pd ∧
    (pd.getAddressesInFunction fn).2.addressesByFunction.find (some fn) =
      pd.addressesByFunction.find (some fn) := by
  have hstate : (pd.getAddressesInFunction fn).2 = pd := by
    unfold PointerDiscovery.getAddressesInFunction
    split <;> rfl
  have hres : (pd.getAddressesInFunction fn).1 = pd.addressesByFunction.find (some fn) := by
    unfold PointerDiscovery.getAddressesInFunction
    split
    · next second h => rw [h]
    · next h => rw [h]
  refine ⟨hres, ?_, ?_, ?_, ?_, hstate, ?_⟩
  · intro addresses h
    rw [hres, h]
  · intro h
    rw [hres, h]
  · rw [hres]
  · intro h
    rw [hres, h]
    exact fun e => Option.noConfusion e
  · rw [hstate]

/-- Witness of C8: the three sample addresses in discovery order for the function
at address 50, an empty list for the function at address 51, null for the
function at address 52. -/
theorem getAddressesInFunction_lookup_witness :
    (samplePointerDiscovery.getAddressesInFunction 50).1 =
      some [some 0, some 1, some 2] ∧
    (samplePointerDiscovery.getAddressesInFunction 51).1 = some [] ∧
    (samplePointerDiscovery.getAddressesInFunction 52).1 = none :=
  ⟨(getAddressesInFunction_lookup samplePointerDiscovery 50).2.1 _ rfl,
    (getAddressesInFunction_lookup samplePointerDiscovery 51).2.2.2.1.mpr rfl,
    (getAddressesInFunction_lookup samplePointerDiscovery 52).2.2.1 rfl⟩

end fcd
